import Mathlib

/-!
# Verification of the `public-api` core: signature renderer and diff engine

This file shallowly embeds the core of the `public-api` crate
(`src/public-api/src/render.rs` and `src/public-api/src/diff.rs`) in Lean 4
and proves the documented properties of the diff engine and the renderer.

Conventions of the embedding:
* Rust `Vec<T>` becomes `List T`; pushing/popping at the high end of a `Vec`
  is modelled by consing/uncons at the head of the *reversed* list.
* A Rust panic (e.g. indexing a `HashMap` with an absent key) is modelled by
  `Option`, with `none` meaning "panics"; panics propagate through `do`.
* Types that the repository defines outside the provided sources
  (`PublicItem` and `Token` with their derived `Ord`) are modelled from the
  spec, as marked in their doc comments.
-/

/-- Modelled from the spec: the `Token` type (`tokens.rs` is not among the
provided sources; `render.rs` constructs tokens through the constructor
helpers used below). A token is a tagged unit of text; the tag is one of the
twelve kinds listed in the spec's data model. -/
inductive Token where
  | Qualifier (text : String)
  | Kind (text : String)
  | Identifier (text : String)
  | Type_ (text : String)
  | Function (text : String)
  | Generic (text : String)
  | Lifetime (text : String)
  | Primitive (text : String)
  | Keyword (text : String)
  | Symbol (text : String)
  | Self_ (text : String)
  | Whitespace
deriving DecidableEq, Repr

/-- Constructor helper mirroring `Token::qualifier`. -/
def Token.qualifier (text : String) : Token := Token.Qualifier text

/-- Constructor helper mirroring `Token::kind`. -/
def Token.kind (text : String) : Token := Token.Kind text

/-- Constructor helper mirroring `Token::identifier`. -/
def Token.identifier (text : String) : Token := Token.Identifier text

/-- Constructor helper mirroring `Token::type_`. -/
def Token.type_ (text : String) : Token := Token.Type_ text

/-- Constructor helper mirroring `Token::function`. -/
def Token.function (text : String) : Token := Token.Function text

/-- Constructor helper mirroring `Token::generic`. -/
def Token.generic (text : String) : Token := Token.Generic text

/-- Constructor helper mirroring `Token::lifetime`. -/
def Token.lifetime (text : String) : Token := Token.Lifetime text

/-- Constructor helper mirroring `Token::primitive`. -/
def Token.primitive (text : String) : Token := Token.Primitive text

/-- Constructor helper mirroring `Token::keyword`. -/
def Token.keyword (text : String) : Token := Token.Keyword text

/-- Constructor helper mirroring `Token::symbol`. -/
def Token.symbol (text : String) : Token := Token.Symbol text

/-- Constructor helper mirroring `Token::self_`. -/
def Token.self_ (text : String) : Token := Token.Self_ text

/-- Modelled from the spec: the rank of a token's tag, following the order in
which the spec's data model lists the tags. Token ordering is lexicographic
by `(tag-rank, text)`. -/
def Token.tagRank : Token → Nat
  | .Qualifier _ => 0
  | .Kind _ => 1
  | .Identifier _ => 2
  | .Type_ _ => 3
  | .Function _ => 4
  | .Generic _ => 5
  | .Lifetime _ => 6
  | .Primitive _ => 7
  | .Keyword _ => 8
  | .Symbol _ => 9
  | .Self_ _ => 10
  | .Whitespace => 11

/-- The text carried by a token (`Whitespace` renders as a single space). -/
def Token.text : Token → String
  | .Qualifier s => s
  | .Kind s => s
  | .Identifier s => s
  | .Type_ s => s
  | .Function s => s
  | .Generic s => s
  | .Lifetime s => s
  | .Primitive s => s
  | .Keyword s => s
  | .Symbol s => s
  | .Self_ s => s
  | .Whitespace => " "

/-- The sort key of a token: its tag rank paired (lexicographically) with its
text. -/
def Token.key (t : Token) : Nat ×ₗ String := toLex (t.tagRank, t.text)

theorem Token.key_injective : Function.Injective Token.key := by
  intro a b h
  cases a <;> cases b <;>
    simp_all [Token.key, Token.tagRank, Token.text, Prod.ext_iff]

/-- Modelled from the spec: two tokens are equal iff both tag and text match;
ordering is lexicographic by `(tag-rank, text)`, stable and total. -/
instance : LinearOrder Token := LinearOrder.lift' Token.key Token.key_injective

/-- Modelled from the spec: a `PublicItem` pairs the item's path (outermost
segment first) with its rendered token sequence (`item_iterator.rs` is not
among the provided sources). -/
structure PublicItem where
  path : List String
  tokens : List Token
deriving DecidableEq, Repr

/-- The sort key of a public item: its path, tie-broken by its tokens. -/
def PublicItem.key (p : PublicItem) : (List String) ×ₗ (List Token) :=
  toLex (p.path, p.tokens)

theorem PublicItem.key_injective_item : Function.Injective PublicItem.key := by
  intro a b h
  cases a
  cases b
  simpa [PublicItem.key, Prod.ext_iff] using h

/-- Modelled from the spec: public items are ordered lexicographically by
`path`, tie-broken by `tokens` (this is the derived `Ord` of the source's
`PublicItem`, whose fields are declared in that order). -/
instance : LinearOrder PublicItem := LinearOrder.lift' PublicItem.key PublicItem.key_injective_item

/-- `PublicItem::cmp` of the derived `Ord`: three-way comparison. -/
def PublicItem.cmp (a b : PublicItem) : Ordering := compareOfLessAndEq a b

/-- `ChangedPublicItem` from `diff.rs`: an item that has changed in the public
API; `old` is how it used to look, `new` how it looks now. -/
structure ChangedPublicItem where
  old : PublicItem
  new : PublicItem
deriving DecidableEq, Repr

/-- The sort key of a changed item (derived `Ord`: `old` first, then `new`). -/
def ChangedPublicItem.key (c : ChangedPublicItem) : PublicItem ×ₗ PublicItem :=
  toLex (c.old, c.new)

theorem ChangedPublicItem.key_injective_changed : Function.Injective ChangedPublicItem.key := by
  intro a b h
  cases a
  cases b
  simpa [ChangedPublicItem.key, Prod.ext_iff] using h

instance : LinearOrder ChangedPublicItem :=
  LinearOrder.lift' ChangedPublicItem.key ChangedPublicItem.key_injective_changed

/-- `PublicItemsDiff` from `diff.rs`: items removed from, changed in, and
added to the public API. -/
structure PublicItemsDiff where
  removed : List PublicItem
  changed : List ChangedPublicItem
  added : List PublicItem
deriving DecidableEq, Repr

/-- `Vec::sort` on public items. Rust's stable sort returns the unique
ascending reordering (the order is antisymmetric, so stability is
irrelevant); we model it by insertion sort. -/
def sortItems (l : List PublicItem) : List PublicItem :=
  List.insertionSort (· ≤ ·) l

/-- `Vec::sort` on changed items. -/
def sortChanged (l : List ChangedPublicItem) : List ChangedPublicItem :=
  List.insertionSort (· ≤ ·) l

/-- The four accumulators of the merge loop in `PublicItemsDiff::between`:
the `removed`, `changed` and `added` vectors, plus (as instrumentation that
the source discards) the common items dropped in the `Ordering::Equal`
branch. -/
structure DiffState where
  removed : List PublicItem
  changed : List ChangedPublicItem
  added : List PublicItem
  common : List PublicItem
deriving DecidableEq, Repr

/-- The pop-compare-push-back merge loop of `PublicItemsDiff::between`.
The two arguments are the sorted inputs viewed as stacks: `Vec::pop` takes
the high end of the ascending vector, so the stacks are the reversed sorted
lists and `pop` is head-uncons. Each loop iteration of the source is one
recursive call; elements are pushed in reversed order (cons instead of
`Vec::push`), which the final sorts in `between` cancel out. The `common`
field records the items discarded in the `Ordering::Equal` branch. -/
def diffStacks : List PublicItem → List PublicItem → DiffState
  | [], [] => ⟨[], [], [], []⟩
  | old :: old_sorted, [] =>
    let st := diffStacks old_sorted []
    { st with removed := old :: st.removed }
  | [], new :: new_sorted =>
    let st := diffStacks [] new_sorted
    { st with added := new :: st.added }
  | old :: old_sorted, new :: new_sorted =>
    if old ≠ new ∧ old.path = new.path then
      -- The same item, but there has been a change in type
      let st := diffStacks old_sorted new_sorted
      { st with changed := ⟨old, new⟩ :: st.changed }
    else
      match PublicItem.cmp old new with
      | .lt =>
        -- `new` goes to added; `old` is pushed back and compared again
        let st := diffStacks (old :: old_sorted) new_sorted
        { st with added := new :: st.added }
      | .eq =>
        -- the same item: discard both and continue
        let st := diffStacks old_sorted new_sorted
        { st with common := old :: st.common }
      | .gt =>
        -- `old` goes to removed; `new` is pushed back and compared again
        let st := diffStacks old_sorted (new :: new_sorted)
        { st with removed := old :: st.removed }
termination_by o n => o.length + n.length
decreasing_by all_goals simp_arith

/-- `PublicItemsDiff::between` from `diff.rs`: sort both inputs, run the
merge loop on the two stacks, and sort the three outputs to make them
predictable and stable. -/
def PublicItemsDiff.between (old_items new_items : List PublicItem) : PublicItemsDiff :=
  let old_sorted := sortItems old_items
  let new_sorted := sortItems new_items
  let st := diffStacks old_sorted.reverse new_sorted.reverse
  { removed := sortItems st.removed
    changed := sortChanged st.changed
    added := sortItems st.added }

/-- The common (unchanged) items that `PublicItemsDiff::between` discards in
the `Ordering::Equal` branch of the merge loop, recovered from the
instrumented loop. -/
def PublicItemsDiff.between_common (old_items new_items : List PublicItem) : List PublicItem :=
  (diffStacks (sortItems old_items).reverse (sortItems new_items).reverse).common

/-- Fuel-bounded variant of the merge loop: each loop iteration (including
the final one that observes two exhausted stacks and breaks) consumes one
unit of fuel, and exhausted fuel yields `none`. Used to express that the
loop terminates within a linear number of iterations. -/
def diffStacksFuel : Nat → List PublicItem → List PublicItem → Option DiffState
  | 0, _, _ => none
  | _ + 1, [], [] => some ⟨[], [], [], []⟩
  | fuel + 1, old :: old_sorted, [] =>
    (diffStacksFuel fuel old_sorted []).map fun st =>
      { st with removed := old :: st.removed }
  | fuel + 1, [], new :: new_sorted =>
    (diffStacksFuel fuel [] new_sorted).map fun st =>
      { st with added := new :: st.added }
  | fuel + 1, old :: old_sorted, new :: new_sorted =>
    if old ≠ new ∧ old.path = new.path then
      (diffStacksFuel fuel old_sorted new_sorted).map fun st =>
        { st with changed := ⟨old, new⟩ :: st.changed }
    else
      match PublicItem.cmp old new with
      | .lt =>
        (diffStacksFuel fuel (old :: old_sorted) new_sorted).map fun st =>
          { st with added := new :: st.added }
      | .eq =>
        (diffStacksFuel fuel old_sorted new_sorted).map fun st =>
          { st with common := old :: st.common }
      | .gt =>
        (diffStacksFuel fuel old_sorted (new :: new_sorted)).map fun st =>
          { st with removed := old :: st.removed }

/-! ## Basic order lemmas -/

theorem PublicItem.cmp_self (a : PublicItem) : PublicItem.cmp a a = .eq := by
  simp [PublicItem.cmp, compareOfLessAndEq, lt_irrefl]

theorem PublicItem.cmp_eq_iff {a b : PublicItem} : PublicItem.cmp a b = .eq ↔ a = b := by
  unfold PublicItem.cmp compareOfLessAndEq
  split_ifs with h1 h2 <;> simp_all
  exact h1.ne

theorem PublicItem.cmp_lt_iff {a b : PublicItem} : PublicItem.cmp a b = .lt ↔ a < b := by
  unfold PublicItem.cmp compareOfLessAndEq
  split_ifs with h1 h2 <;> simp_all

theorem PublicItem.cmp_gt_iff {a b : PublicItem} : PublicItem.cmp a b = .gt ↔ b < a := by
  unfold PublicItem.cmp compareOfLessAndEq
  split_ifs with h1 h2
  · simp [lt_asymm h1]
  · subst h2
    simp [lt_irrefl]
  · simp [lt_of_le_of_ne (not_lt.mp h1) (Ne.symm h2)]

/-! ## Step equations for the merge loop -/

theorem diffStacks_nil_nil : diffStacks [] [] = ⟨[], [], [], []⟩ := by
  simp [diffStacks]

theorem diffStacks_cons_nil (old : PublicItem) (os : List PublicItem) :
    diffStacks (old :: os) [] =
      { diffStacks os [] with removed := old :: (diffStacks os []).removed } := by
  simp [diffStacks]

theorem diffStacks_nil_cons (new : PublicItem) (ns : List PublicItem) :
    diffStacks [] (new :: ns) =
      { diffStacks [] ns with added := new :: (diffStacks [] ns).added } := by
  simp [diffStacks]

theorem diffStacks_changed_step (old : PublicItem) (os : List PublicItem)
    (new : PublicItem) (ns : List PublicItem) (h : old ≠ new ∧ old.path = new.path) :
    diffStacks (old :: os) (new :: ns) =
      { diffStacks os ns with changed := ⟨old, new⟩ :: (diffStacks os ns).changed } := by
  simp [diffStacks, h.1, h.2]

theorem diffStacks_lt_step (old : PublicItem) (os : List PublicItem)
    (new : PublicItem) (ns : List PublicItem) (h : ¬(old ≠ new ∧ old.path = new.path))
    (hcmp : PublicItem.cmp old new = .lt) :
    diffStacks (old :: os) (new :: ns) =
      { diffStacks (old :: os) ns with added := new :: (diffStacks (old :: os) ns).added } := by
  simp [diffStacks, h, hcmp]

theorem diffStacks_eq_step (old : PublicItem) (os : List PublicItem)
    (new : PublicItem) (ns : List PublicItem) (h : ¬(old ≠ new ∧ old.path = new.path))
    (hcmp : PublicItem.cmp old new = .eq) :
    diffStacks (old :: os) (new :: ns) =
      { diffStacks os ns with common := old :: (diffStacks os ns).common } := by
  simp [diffStacks, h, hcmp]

theorem diffStacks_gt_step (old : PublicItem) (os : List PublicItem)
    (new : PublicItem) (ns : List PublicItem) (h : ¬(old ≠ new ∧ old.path = new.path))
    (hcmp : PublicItem.cmp old new = .gt) :
    diffStacks (old :: os) (new :: ns) =
      { diffStacks os (new :: ns) with removed := old :: (diffStacks os (new :: ns)).removed } := by
  simp [diffStacks, h, hcmp]

/-! ## Invariants of the merge loop -/

theorem perm_cons_middle {α : Type} (a : α) {l₁ l₂ l₃ : List α}
    (h : List.Perm (l₁ ++ l₂) l₃) : List.Perm (l₁ ++ a :: l₂) (a :: l₃) :=
  List.perm_middle.trans (h.cons a)

theorem diffStacks_perm (o n : List PublicItem) :
    List.Perm ((diffStacks o n).removed ++ ((diffStacks o n).changed).map ChangedPublicItem.old
      ++ (diffStacks o n).common) o ∧
    List.Perm ((diffStacks o n).added ++ ((diffStacks o n).changed).map ChangedPublicItem.new
      ++ (diffStacks o n).common) n := by
  induction o, n using diffStacks.induct with
  | case1 => simp [diffStacks_nil_nil]
  | case2 old os ih =>
    rw [diffStacks_cons_nil]
    exact ⟨(List.cons_append old _ _) ▸ (List.cons_append old _ _) ▸ (ih.1.cons old), ih.2⟩
  | case3 new ns ih =>
    rw [diffStacks_nil_cons]
    exact ⟨ih.1, (List.cons_append new _ _) ▸ (List.cons_append new _ _) ▸ (ih.2.cons new)⟩
  | case4 old os new ns h ih =>
    rw [diffStacks_changed_step old os new ns h]
    constructor
    · simp only [List.map_cons, List.cons_append, List.append_assoc] at ih ⊢
      exact perm_cons_middle old ih.1
    · simp only [List.map_cons, List.cons_append, List.append_assoc] at ih ⊢
      exact perm_cons_middle new ih.2
  | case5 old os new ns h hcmp ih =>
    rw [diffStacks_lt_step old os new ns h hcmp]
    exact ⟨ih.1, (List.cons_append new _ _) ▸ (ih.2.cons new)⟩
  | case6 old os new ns h hcmp ih =>
    rw [diffStacks_eq_step old os new ns h hcmp]
    have hEq : old = new := PublicItem.cmp_eq_iff.mp hcmp
    constructor
    · exact perm_cons_middle old ih.1
    · exact hEq ▸ perm_cons_middle old ih.2
  | case7 old os new ns h hcmp ih =>
    rw [diffStacks_gt_step old os new ns h hcmp]
    exact ⟨(List.cons_append old _ _) ▸ (ih.1.cons old), ih.2⟩

theorem diffStacks_changed_spec (o n : List PublicItem) :
    ∀ c ∈ (diffStacks o n).changed, c.old ≠ c.new ∧ c.old.path = c.new.path := by
  induction o, n using diffStacks.induct with
  | case1 => simp [diffStacks_nil_nil]
  | case2 old os ih =>
    rw [diffStacks_cons_nil]
    exact ih
  | case3 new ns ih =>
    rw [diffStacks_nil_cons]
    exact ih
  | case4 old os new ns h ih =>
    rw [diffStacks_changed_step old os new ns h]
    intro c hc
    rcases List.mem_cons.mp hc with rfl | hc
    · exact ⟨h.1, h.2⟩
    · exact ih c hc
  | case5 old os new ns h hcmp ih =>
    rw [diffStacks_lt_step old os new ns h hcmp]
    exact ih
  | case6 old os new ns h hcmp ih =>
    rw [diffStacks_eq_step old os new ns h hcmp]
    exact ih
  | case7 old os new ns h hcmp ih =>
    rw [diffStacks_gt_step old os new ns h hcmp]
    exact ih

theorem diffStacks_self (l : List PublicItem) : diffStacks l l = ⟨[], [], [], l⟩ := by
  induction l with
  | nil => exact diffStacks_nil_nil
  | cons a l ih =>
    rw [diffStacks_eq_step a l a l (by simp) (PublicItem.cmp_self a), ih]

theorem diffStacksFuel_spec (o n : List PublicItem) :
    ∀ fuel : Nat, o.length + n.length < fuel →
      diffStacksFuel fuel o n = some (diffStacks o n) := by
  induction o, n using diffStacks.induct with
  | case1 =>
    intro fuel hf
    match fuel, hf with
    | fuel + 1, _ => simp [diffStacksFuel, diffStacks_nil_nil]
  | case2 old os ih =>
    intro fuel hf
    match fuel, hf with
    | fuel + 1, hf =>
      have := ih fuel (by simp at hf ⊢; omega)
      simp [diffStacksFuel, this, diffStacks_cons_nil]
  | case3 new ns ih =>
    intro fuel hf
    match fuel, hf with
    | fuel + 1, hf =>
      have := ih fuel (by simp at hf ⊢; omega)
      simp [diffStacksFuel, this, diffStacks_nil_cons]
  | case4 old os new ns h ih =>
    intro fuel hf
    match fuel, hf with
    | fuel + 1, hf =>
      have := ih fuel (by simp at hf ⊢; omega)
      simp [diffStacksFuel, h.1, h.2, this, diffStacks_changed_step old os new ns h]
  | case5 old os new ns h hcmp ih =>
    intro fuel hf
    match fuel, hf with
    | fuel + 1, hf =>
      have := ih fuel (by simp at hf ⊢; omega)
      simp [diffStacksFuel, h, hcmp, this, diffStacks_lt_step old os new ns h hcmp]
  | case6 old os new ns h hcmp ih =>
    intro fuel hf
    match fuel, hf with
    | fuel + 1, hf =>
      have := ih fuel (by simp at hf ⊢; omega)
      simp [diffStacksFuel, h, hcmp, this, diffStacks_eq_step old os new ns h hcmp]
  | case7 old os new ns h hcmp ih =>
    intro fuel hf
    match fuel, hf with
    | fuel + 1, hf =>
      have := ih fuel (by simp at hf ⊢; omega)
      simp [diffStacksFuel, h, hcmp, this, diffStacks_gt_step old os new ns h hcmp]

theorem diffStacks_eval {o n : List PublicItem} {st : DiffState}
    (h : diffStacksFuel (o.length + n.length + 1) o n = some st) : diffStacks o n = st := by
  have hspec := diffStacksFuel_spec o n (o.length + n.length + 1) (by omega)
  rw [hspec] at h
  exact Option.some_inj.mp h

theorem sortItems_eq_of_perm {l₁ l₂ : List PublicItem} (h : List.Perm l₁ l₂) :
    sortItems l₁ = sortItems l₂ :=
  List.eq_of_perm_of_sorted
    (((List.perm_insertionSort _ l₁).trans h).trans (List.perm_insertionSort _ l₂).symm)
    (List.sorted_insertionSort _ l₁) (List.sorted_insertionSort _ l₂)

theorem PublicItem.eq_of_parts {a b : PublicItem} (hp : a.path = b.path)
    (ht : a.tokens = b.tokens) : a = b := by
  cases a
  cases b
  simp_all

/-! ## Claims about the diff engine -/

/-- C1: Partition law of the diff engine. For every pair of input collections
`old` and `new`, the multiset union of `removed`, the `old`-projections of
`changed`, and the common (unchanged) items discarded during the merge equals
the `old` input; symmetrically, the multiset union of `added`, the
`new`-projections of `changed`, and the same common items equals the `new`
input. -/
theorem diff_partition_law (old_items new_items : List PublicItem) :
    ((PublicItemsDiff.between old_items new_items).removed : Multiset PublicItem)
        + ↑(((PublicItemsDiff.between old_items new_items).changed).map ChangedPublicItem.old)
        + ↑(PublicItemsDiff.between_common old_items new_items)
      = ↑old_items ∧
    ((PublicItemsDiff.between old_items new_items).added : Multiset PublicItem)
        + ↑(((PublicItemsDiff.between old_items new_items).changed).map ChangedPublicItem.new)
        + ↑(PublicItemsDiff.between_common old_items new_items)
      = ↑new_items := by
  have hOld := (diffStacks_perm (sortItems old_items).reverse (sortItems new_items).reverse).1
  have hNew := (diffStacks_perm (sortItems old_items).reverse (sortItems new_items).reverse).2
  constructor
  · have hperm : List.Perm
        ((PublicItemsDiff.between old_items new_items).removed
          ++ ((PublicItemsDiff.between old_items new_items).changed).map ChangedPublicItem.old
          ++ PublicItemsDiff.between_common old_items new_items) old_items := by
      refine (List.Perm.append (List.Perm.append ?_ ?_) ?_).trans
        (hOld.trans ((List.reverse_perm _).trans (List.perm_insertionSort _ _)))
      · exact List.perm_insertionSort _ _
      · exact (List.perm_insertionSort _ _).map ChangedPublicItem.old
      · exact List.Perm.refl _
    rw [Multiset.coe_add, Multiset.coe_add]
    exact Multiset.coe_eq_coe.mpr hperm
  · have hperm : List.Perm
        ((PublicItemsDiff.between old_items new_items).added
          ++ ((PublicItemsDiff.between old_items new_items).changed).map ChangedPublicItem.new
          ++ PublicItemsDiff.between_common old_items new_items) new_items := by
      refine (List.Perm.append (List.Perm.append ?_ ?_) ?_).trans
        (hNew.trans ((List.reverse_perm _).trans (List.perm_insertionSort _ _)))
      · exact List.perm_insertionSort _ _
      · exact (List.perm_insertionSort _ _).map ChangedPublicItem.new
      · exact List.Perm.refl _
    rw [Multiset.coe_add, Multiset.coe_add]
    exact Multiset.coe_eq_coe.mpr hperm

/-- C3: Idempotence of the diff engine. Diffing any collection `X` against
itself (duplicates and textually identical items included) yields empty
`removed`, `changed` and `added`. -/
theorem diff_idempotent (X : List PublicItem) :
    PublicItemsDiff.between X X = ⟨[], [], []⟩ := by
  show PublicItemsDiff.mk
      (sortItems (diffStacks (sortItems X).reverse (sortItems X).reverse).removed)
      (sortChanged (diffStacks (sortItems X).reverse (sortItems X).reverse).changed)
      (sortItems (diffStacks (sortItems X).reverse (sortItems X).reverse).added) = _
  rw [diffStacks_self]
  rfl

/-- C4: Order-independence of the diff engine. Replacing either input of
`PublicItemsDiff::between` by any permutation of it yields exactly the same
diff result (same `removed`, `changed`, `added`, in the same order). -/
theorem diff_order_independent (old_items new_items old_perm new_perm : List PublicItem)
    (hOld : List.Perm old_perm old_items) (hNew : List.Perm new_perm new_items) :
    PublicItemsDiff.between old_perm new_perm =
      PublicItemsDiff.between old_items new_items := by
  unfold PublicItemsDiff.between
  rw [sortItems_eq_of_perm hOld, sortItems_eq_of_perm hNew]

/-- Witness for C4 at a concrete input: swapping the two elements of the old
input leaves the diff unchanged. -/
theorem diff_order_independent_witness :
    List.Perm [PublicItem.mk ["b"] [], PublicItem.mk ["a"] []]
        [PublicItem.mk ["a"] [], PublicItem.mk ["b"] []] ∧
    List.Perm ([] : List PublicItem) [] ∧
    PublicItemsDiff.between [PublicItem.mk ["b"] [], PublicItem.mk ["a"] []] [] =
      PublicItemsDiff.between [PublicItem.mk ["a"] [], PublicItem.mk ["b"] []] [] :=
  ⟨List.Perm.swap (PublicItem.mk ["a"] []) (PublicItem.mk ["b"] []) [], List.Perm.nil,
    diff_order_independent [PublicItem.mk ["a"] [], PublicItem.mk ["b"] []] []
      [PublicItem.mk ["b"] [], PublicItem.mk ["a"] []] []
      (List.Perm.swap (PublicItem.mk ["a"] []) (PublicItem.mk ["b"] []) []) List.Perm.nil⟩

/-- C5: Every `ChangedPublicItem` emitted by `PublicItemsDiff::between` has
`old.path = new.path`, and the two items differ as whole public items, i.e.
their token sequences differ. -/
theorem diff_changed_same_path (old_items new_items : List PublicItem)
    (c : ChangedPublicItem) (hc : c ∈ (PublicItemsDiff.between old_items new_items).changed) :
    c.old.path = c.new.path ∧ c.old ≠ c.new ∧ c.old.tokens ≠ c.new.tokens := by
  have hmem : c ∈ (diffStacks (sortItems old_items).reverse (sortItems new_items).reverse).changed :=
    (List.Perm.mem_iff (List.perm_insertionSort _ _)).mp hc
  have hspec := diffStacks_changed_spec _ _ c hmem
  refine ⟨hspec.2, hspec.1, fun ht => hspec.1 (PublicItem.eq_of_parts hspec.2 ht)⟩

/-- Witness for C5 at a concrete input: diffing two single-item collections
with equal paths and different tokens emits exactly that changed pair. -/
theorem diff_changed_same_path_witness :
    (ChangedPublicItem.mk (PublicItem.mk ["m"] [Token.Whitespace])
        (PublicItem.mk ["m"] [Token.Symbol "!"])) ∈
      (PublicItemsDiff.between [PublicItem.mk ["m"] [Token.Whitespace]]
        [PublicItem.mk ["m"] [Token.Symbol "!"]]).changed ∧
    (PublicItem.mk ["m"] [Token.Whitespace]).path = (PublicItem.mk ["m"] [Token.Symbol "!"]).path ∧
    PublicItem.mk ["m"] [Token.Whitespace] ≠ PublicItem.mk ["m"] [Token.Symbol "!"] ∧
    (PublicItem.mk ["m"] [Token.Whitespace]).tokens ≠ (PublicItem.mk ["m"] [Token.Symbol "!"]).tokens := by
  have hd : diffStacks [PublicItem.mk ["m"] [Token.Whitespace]]
      [PublicItem.mk ["m"] [Token.Symbol "!"]] =
      ⟨[], [ChangedPublicItem.mk (PublicItem.mk ["m"] [Token.Whitespace])
        (PublicItem.mk ["m"] [Token.Symbol "!"])], [], []⟩ :=
    diffStacks_eval (by rfl)
  have hch : (PublicItemsDiff.between [PublicItem.mk ["m"] [Token.Whitespace]]
      [PublicItem.mk ["m"] [Token.Symbol "!"]]).changed =
      [ChangedPublicItem.mk (PublicItem.mk ["m"] [Token.Whitespace])
        (PublicItem.mk ["m"] [Token.Symbol "!"])] := by
    show sortChanged (diffStacks [PublicItem.mk ["m"] [Token.Whitespace]]
      [PublicItem.mk ["m"] [Token.Symbol "!"]]).changed = _
    rw [hd]
    rfl
  have hmem : (ChangedPublicItem.mk (PublicItem.mk ["m"] [Token.Whitespace])
      (PublicItem.mk ["m"] [Token.Symbol "!"])) ∈
      (PublicItemsDiff.between [PublicItem.mk ["m"] [Token.Whitespace]]
        [PublicItem.mk ["m"] [Token.Symbol "!"]]).changed := by
    rw [hch]
    exact List.mem_singleton.mpr rfl
  exact ⟨hmem, diff_changed_same_path _ _ _ hmem⟩

/-- C6: The three output sequences of `PublicItemsDiff::between` are each
sorted ascending in the public-item order (lexicographic by path, tie-broken
by tokens; changed pairs by their derived lexicographic order). -/
theorem diff_outputs_sorted (old_items new_items : List PublicItem) :
    List.Sorted (· ≤ ·) (PublicItemsDiff.between old_items new_items).removed ∧
    List.Sorted (· ≤ ·) (PublicItemsDiff.between old_items new_items).changed ∧
    List.Sorted (· ≤ ·) (PublicItemsDiff.between old_items new_items).added :=
  ⟨List.sorted_insertionSort _ _, List.sorted_insertionSort _ _, List.sorted_insertionSort _ _⟩

/-- C9: Termination of the merge loop. Each iteration strictly decreases the
combined number of items remaining on the two stacks, so running the
fuel-bounded loop with one unit of fuel more than that combined number always
finishes and computes the (total) merge: `PublicItemsDiff::between`
terminates after a linear number of comparisons. -/
theorem diff_merge_loop_terminates (o n : List PublicItem) :
    diffStacksFuel (o.length + n.length + 1) o n = some (diffStacks o n) :=
  diffStacksFuel_spec o n (o.length + n.length + 1) (by omega)

/-! ## The rustdoc AST (input contract of the renderer)

The shapes below are the parts of the `rustdoc_types` crate that
`render.rs` reads; fields the renderer never touches are omitted. `Type` is
a reserved name in Lean, hence `Type'`. -/

namespace rustdoc

/-- `rustdoc_types::Id`: a stable item identifier. -/
structure Id where
  id : String
deriving DecidableEq, Repr

/-- The part of `rustdoc_types::Item` that the renderer reads: the optional
display name (consulted by `render_id`). -/
structure Item where
  name : Option String
deriving DecidableEq, Repr

/-- The part of `rustdoc_types::Crate` that the renderer reads: the index
mapping identifiers to items, modelled as an association list. -/
structure Crate where
  index : List (Id × Item)
deriving DecidableEq, Repr

/-- `HashMap::get`-style lookup in the crate index (the caller decides what
an absent key means). -/
def Crate.indexGet (root : Crate) (id : Id) : Option Item :=
  root.index.lookup id

mutual

/-- `rustdoc_types::Type`: the recursive sum of type shapes. -/
inductive Type' where
  | ResolvedPath (name : String) (args : Option GenericArgs) (id : Id)
      (param_names : List GenericBound)
  | Generic (name : String)
  | Primitive (name : String)
  | FunctionPointer (ptr : FunctionPointer)
  | Tuple (types : List Type')
  | Slice (ty : Type')
  | Array (type_ : Type') (len : String)
  | ImplTrait (bounds : List GenericBound)
  | Infer
  | RawPointer (mutable : Bool) (type_ : Type')
  | BorrowedRef (lifetime : Option String) (mutable : Bool) (type_ : Type')
  | QualifiedPath (name : String) (args : GenericArgs) (self_type : Type') (trait_ : Type')

/-- `rustdoc_types::GenericArgs`. -/
inductive GenericArgs where
  | AngleBracketed (args : List GenericArg) (bindings : List TypeBinding)
  | Parenthesized (inputs : List Type') (output : Option Type')

/-- `rustdoc_types::GenericArg`. -/
inductive GenericArg where
  | Lifetime (name : String)
  | Type (ty : Type')
  | Const (c : Constant)
  | Infer

/-- The part of `rustdoc_types::Constant` that the renderer reads. -/
inductive Constant where
  | mk (type_ : Type') (value : Option String) (is_literal : Bool)

/-- `rustdoc_types::Term`. -/
inductive Term where
  | Type (ty : Type')
  | Constant (c : Constant)

/-- `rustdoc_types::TypeBinding`. -/
inductive TypeBinding where
  | mk (name : String) (args : GenericArgs) (binding : TypeBindingKind)

/-- `rustdoc_types::TypeBindingKind`. -/
inductive TypeBindingKind where
  | Equality (term : Term)
  | Constraint (bounds : List GenericBound)

/-- The part of `rustdoc_types::GenericBound` that the renderer reads (the
trait-bound modifier is ignored by `render.rs`, hence omitted). -/
inductive GenericBound where
  | TraitBound (trait_ : Type') (generic_params : List GenericParamDef)
  | Outlives (id : String)

/-- `rustdoc_types::GenericParamDef`. -/
inductive GenericParamDef where
  | mk (name : String) (kind : GenericParamDefKind)

/-- The part of `rustdoc_types::GenericParamDefKind` that the renderer reads
(defaults are ignored by `render.rs`, hence omitted). -/
inductive GenericParamDefKind where
  | Lifetime (outlives : List String)
  | Type (bounds : List GenericBound) (synthetic : Bool)
  | Const (type_ : Type')

/-- `rustdoc_types::WherePredicate`. -/
inductive WherePredicate where
  | BoundPredicate (type_ : Type') (bounds : List GenericBound)
      (generic_params : List GenericParamDef)
  | RegionPredicate (lifetime : String) (bounds : List GenericBound)
  | EqPredicate (lhs : Type') (rhs : Term)

/-- The part of `rustdoc_types::FnDecl` that the renderer reads
(`c_variadic` is ignored by `render.rs`, hence omitted). -/
inductive FnDecl where
  | mk (inputs : List (String × Type')) (output : Option Type')

/-- The part of `rustdoc_types::FunctionPointer` that `render_type` reads
(the header is ignored, hence omitted). -/
inductive FunctionPointer where
  | mk (decl : FnDecl) (generic_params : List GenericParamDef)

end

end rustdoc

open rustdoc

/-! ## The renderer (`render.rs`) -/

/-- `plus()` from `render.rs`. -/
def plus : List Token := [Token.Whitespace, Token.symbol "+", Token.Whitespace]

/-- `colon()` from `render.rs`. -/
def colon : List Token := [Token.symbol ":", Token.Whitespace]

/-- `comma()` from `render.rs`. -/
def comma : List Token := [Token.symbol ",", Token.Whitespace]

/-- `equals()` from `render.rs`. -/
def equals : List Token := [Token.Whitespace, Token.symbol "=", Token.Whitespace]

/-- `arrow()` from `render.rs`. -/
def arrow : List Token := [Token.Whitespace, Token.symbol "->", Token.Whitespace]

/-- `render_sequence` from `render.rs`: render each element, interpose the
`between` separator, truncate the trailing separator, and (when
`return_nothing_if_empty` is set) collapse to the empty sequence when
nothing beyond `start` was accumulated. The for-loop is a fold; `truncate`
is `take`. -/
def render_sequence {α : Type} (start end_ between : List Token)
    (return_nothing_if_empty : Bool) (sequence : List α) (render : α → List Token) :
    List Token :=
  let start_len := start.length
  let output := sequence.foldl (fun acc seq => acc ++ render seq ++ between) start
  if between.length ≤ output.length then
    let output := output.take (output.length - between.length)
    if output.length == start_len && return_nothing_if_empty then []
    else output ++ end_
  else if return_nothing_if_empty then []
  else if output.length == start_len && return_nothing_if_empty then []
  else output ++ end_

/-- `render_id` from `render.rs`. The source indexes the `HashMap` directly
(`root.index[id]`), which panics when the id is absent — modelled by `none`;
a present item with no name degrades to the empty token sequence
(`map_or_else(Vec::new, …)`). -/
def render_id (root : Crate) (id : rustdoc.Id) : Option (List Token) :=
  match root.indexGet id with
  | none => none
  | some item =>
    some (match item.name with
      | some name => [Token.identifier name]
      | none => [])

/-- Embeds Rust's `str::split("::")` over the character list: split on each
non-overlapping occurrence of `"::"`, left to right (`String.splitOn` is not
kernel-reducible, so the splitting is spelled out structurally). -/
def split2colon : List Char → List (List Char)
  | [] => [[]]
  | ':' :: ':' :: rest => [] :: split2colon rest
  | c :: rest =>
    match split2colon rest with
    | [] => [[c]]
    | g :: gs => (c :: g) :: gs

/-- `simplified_self` from `render.rs`: a parameter named `self` of type
`Self`, `&Self` or `&mut Self` (with an optional lifetime) simplifies to
`self`, `&self`, `&mut self`; everything else yields `None`. -/
def simplified_self (name : String) (ty : Type') : Option (List Token) :=
  if name = "self" then
    match ty with
    | .Generic n => if n = "Self" then some [Token.self_ "self"] else none
    | .BorrowedRef lifetime mutable type_ =>
      match type_ with
      | .Generic n =>
        if n = "Self" then
          some ([Token.symbol "&"] ++
            (match lifetime with
             | some lt => [Token.lifetime lt, Token.Whitespace]
             | none => []) ++
            (if mutable then [Token.keyword "mut", Token.Whitespace] else []) ++
            [Token.self_ "self"])
        else none
      | _ => none
    | _ => none
  else none


/-! ### The mutually recursive rendering core

Lean's structural-recursion checker rejects mutual calls that pass an
argument along unchanged (as `render_tuple`, `render_generic_bounds`,
`render_higher_rank_trait_bounds`/`render_generic_param_defs` and the
parameter closure of `render_fn_decl` do in the source), so inside this
block the bodies of those helpers are inlined at their call sites and the
element loops of `render_sequence` appear as explicit list walkers. The
helpers themselves are defined right after the block with their source
shapes, together with lemmas showing the inlined copies agree with them. -/

mutual

/-- `render_type` from `render.rs`. Each `Option` bind propagates a panic of
`render_id`; everything else is the source's token assembly. The `Tuple`,
`ImplTrait`, `FunctionPointer` and `param_names` branches inline
`render_tuple`, `render_generic_bounds` and
`render_higher_rank_trait_bounds` (see the agreement lemmas below). -/
def render_type (root : Crate) : Type' → Option (List Token)
  | .ResolvedPath name args _id param_names => do
    let base ←
      if name.isEmpty then
        render_id root _id
      else do
        let split := (split2colon name.toList).map (fun cs => String.mk cs)
        let len := split.length
        let path_tokens := (split.enum.map (fun p =>
          [if p.1 = 0 ∧ p.2 = "$crate" then Token.identifier "$crate"
           else if p.1 = len - 1 then Token.type_ p.2
           else Token.identifier p.2,
           Token.symbol "::"])).flatten
        let path_tokens := if len > 0 then path_tokens.dropLast else path_tokens
        let args_tokens ← match args with
          | some a => render_generic_args root a
          | none => pure []
        pure (path_tokens ++ args_tokens)
    if param_names.isEmpty then
      pure base
    else do
      let bounds ←
        if param_names.isEmpty then pure []
        else do
          let rendered ← render_generic_bound_list root param_names
          pure (render_sequence [] [] plus true rendered (fun ts => ts))
      pure (base ++ plus ++ bounds)
  | .Generic name => pure [Token.generic name]
  | .Primitive name => pure [Token.primitive name]
  | .FunctionPointer (.mk decl generic_params) => do
    let hrtb ←
      if generic_params.isEmpty then pure []
      else do
        let defs ← do
          let params_without_synthetics := generic_params.filter (fun p =>
            match p with
            | .mk _ (.Type _ synthetic) => !synthetic
            | _ => true)
          if params_without_synthetics.isEmpty then pure []
          else do
            let rendered ← render_generic_param_def_list_skipping root generic_params
            pure (render_sequence [Token.symbol "<"] [Token.symbol ">"] comma true rendered
              (fun ts => ts))
        pure ([Token.keyword "for"] ++ defs ++ [Token.Whitespace])
    let d ← render_fn_decl root decl
    pure (hrtb ++ [Token.kind "fn"] ++ d)
  | .Tuple types => do
    let rendered ← render_type_list root types
    pure (render_sequence [Token.symbol "("] [Token.symbol ")"] comma false rendered
      (fun ts => ts))
  | .Slice ty => do
    let inner ← render_type root ty
    pure ([Token.symbol "["] ++ inner ++ [Token.symbol "]"])
  | .Array type_ len => do
    let inner ← render_type root type_
    pure ([Token.symbol "["] ++ inner ++
      [Token.symbol ";", Token.Whitespace, Token.primitive len, Token.symbol "]"])
  | .ImplTrait bounds => do
    let b ←
      if bounds.isEmpty then pure []
      else do
        let rendered ← render_generic_bound_list root bounds
        pure (render_sequence [] [] plus true rendered (fun ts => ts))
    pure ([Token.keyword "impl", Token.Whitespace] ++ b)
  | .Infer => pure [Token.symbol "_"]
  | .RawPointer mutable type_ => do
    let t ← render_type root type_
    pure ([Token.symbol "*", Token.keyword (if mutable then "mut" else "const"),
      Token.Whitespace] ++ t)
  | .BorrowedRef lifetime mutable type_ => do
    let t ← render_type root type_
    pure ([Token.symbol "&"] ++
      (match lifetime with
       | some lt => [Token.lifetime lt, Token.Whitespace]
       | none => []) ++
      (if mutable then [Token.keyword "mut", Token.Whitespace] else []) ++ t)
  | .QualifiedPath name _args self_type trait_ => do
    let s ← render_type root self_type
    let t ← render_type root trait_
    pure ([Token.symbol "<"] ++ s ++ [Token.Whitespace, Token.keyword "as", Token.Whitespace]
      ++ t ++ [Token.symbol ">::", Token.identifier name])
termination_by structural ty => ty

/-- Elementwise rendering of a type list (the loop inside `render_sequence`
at the call sites that render types; a panic of any element aborts). -/
def render_type_list (root : Crate) : List Type' → Option (List (List Token))
  | [] => pure []
  | t :: ts => do
    let r ← render_type root t
    let rs ← render_type_list root ts
    pure (r :: rs)
termination_by structural l => l

/-- `render_fn_decl` from `render.rs`: the parenthesised parameter list
(`return_nothing_if_empty = false`, so `fn()` keeps its parens), then the
optional `-> return-type`. -/
def render_fn_decl (root : Crate) : FnDecl → Option (List Token)
  | .mk inputs output => do
    let rendered ← render_fn_param_list root inputs
    let main := render_sequence [Token.symbol "("] [Token.symbol ")"] comma false rendered
      (fun ts => ts)
    match output with
    | some ty => do
      let t ← render_type root ty
      pure (main ++ arrow ++ t)
    | none => pure main
termination_by structural decl => decl

/-- Elementwise rendering of a parameter list, inlining the parameter
closure of `render_fn_decl` (`self` simplification first, otherwise
`name: type` with the name suppressed for `_`); `render_fn_param` below is
the closure itself. -/
def render_fn_param_list (root : Crate) : List (String × Type') → Option (List (List Token))
  | [] => pure []
  | (name, ty) :: rest => do
    let r ←
      match simplified_self name ty with
      | some ts => pure ts
      | none => do
        let t ← render_type root ty
        pure ((if name ≠ "_" then [Token.identifier name, Token.symbol ":", Token.Whitespace]
          else []) ++ t)
    let rs ← render_fn_param_list root rest
    pure (r :: rs)
termination_by structural l => l

/-- `render_generic_args` from `render.rs`. The source chains the generic
args and the type bindings into one sequence through its local `Binding`
enum; here the two rendered lists are concatenated directly. Angle-bracketed
lists use `return_nothing_if_empty = true` (no spurious `<>`); parenthesised
ones behave like function argument lists. -/
def render_generic_args (root : Crate) : GenericArgs → Option (List Token)
  | .AngleBracketed args bindings => do
    let args_rendered ← render_generic_arg_list root args
    let bindings_rendered ← render_type_binding_list root bindings
    pure (render_sequence [Token.symbol "<"] [Token.symbol ">"] comma true
      (args_rendered ++ bindings_rendered) (fun ts => ts))
  | .Parenthesized inputs return_ty => do
    let rendered ← render_type_list root inputs
    let output := render_sequence [Token.symbol "("] [Token.symbol ")"] comma false rendered
      (fun ts => ts)
    match return_ty with
    | some ty => do
      let t ← render_type root ty
      pure (output ++ arrow ++ t)
    | none => pure output
termination_by structural args => args

/-- `render_generic_arg` from `render.rs`. -/
def render_generic_arg (root : Crate) : GenericArg → Option (List Token)
  | .Lifetime name => pure [Token.lifetime name]
  | .Type ty => render_type root ty
  | .Const c => render_constant root c
  | .Infer => pure [Token.symbol "_"]
termination_by structural arg => arg

/-- Elementwise rendering of a generic-argument list. -/
def render_generic_arg_list (root : Crate) : List GenericArg → Option (List (List Token))
  | [] => pure []
  | a :: rest => do
    let r ← render_generic_arg root a
    let rs ← render_generic_arg_list root rest
    pure (r :: rs)
termination_by structural l => l

/-- The type-binding arm of the rendering closure in `render_generic_args`:
`name`, its generic args, then `= term` for an equality binding or the
bounds for a constraint binding (`render_generic_bounds` inlined). -/
def render_type_binding (root : Crate) : TypeBinding → Option (List Token)
  | .mk name args binding => do
    let a ← render_generic_args root args
    let rest ←
      match binding with
      | .Equality term => do
        let t ← render_term root term
        pure (equals ++ t)
      | .Constraint bounds =>
        if bounds.isEmpty then pure []
        else do
          let rendered ← render_generic_bound_list root bounds
          pure (render_sequence [] [] plus true rendered (fun ts => ts))
    pure ([Token.identifier name] ++ a ++ rest)
termination_by structural tb => tb

/-- Elementwise rendering of a type-binding list. -/
def render_type_binding_list (root : Crate) : List TypeBinding → Option (List (List Token))
  | [] => pure []
  | b :: rest => do
    let r ← render_type_binding root b
    let rs ← render_type_binding_list root rest
    pure (r :: rs)
termination_by structural l => l

/-- `render_term` from `render.rs`. -/
def render_term (root : Crate) : Term → Option (List Token)
  | .Type ty => render_type root ty
  | .Constant c => render_constant root c
termination_by structural t => t

/-- `render_constant` from `render.rs`: the constant's type, then
`= value`, with the value a primitive token for literals and an identifier
otherwise. -/
def render_constant (root : Crate) : Constant → Option (List Token)
  | .mk type_ value is_literal => do
    let t ← render_type root type_
    match value with
    | some v =>
      if is_literal then pure (t ++ equals ++ [Token.primitive v])
      else pure (t ++ equals ++ [Token.identifier v])
    | none => pure t
termination_by structural c => c

/-- The bound-rendering closure inside `render_generic_bounds`: a trait
bound renders its higher-rank parameters (inlined) then the trait; an
outlives bound renders the lifetime. -/
def render_generic_bound (root : Crate) : GenericBound → Option (List Token)
  | .TraitBound trait_ generic_params => do
    let h ←
      if generic_params.isEmpty then pure []
      else do
        let defs ← do
          let params_without_synthetics := generic_params.filter (fun p =>
            match p with
            | .mk _ (.Type _ synthetic) => !synthetic
            | _ => true)
          if params_without_synthetics.isEmpty then pure []
          else do
            let rendered ← render_generic_param_def_list_skipping root generic_params
            pure (render_sequence [Token.symbol "<"] [Token.symbol ">"] comma true rendered
              (fun ts => ts))
        pure ([Token.keyword "for"] ++ defs ++ [Token.Whitespace])
    let t ← render_type root trait_
    pure (h ++ t)
  | .Outlives id => pure [Token.lifetime id]
termination_by structural b => b

/-- Elementwise rendering of a bound list. -/
def render_generic_bound_list (root : Crate) : List GenericBound → Option (List (List Token))
  | [] => pure []
  | b :: rest => do
    let r ← render_generic_bound root b
    let rs ← render_generic_bound_list root rest
    pure (r :: rs)
termination_by structural l => l

/-- `render_generic_param_def` from `render.rs` (with the
`render_generic_bounds` body inlined in the `Type` arm). -/
def render_generic_param_def (root : Crate) : GenericParamDef → Option (List Token)
  | .mk name kind =>
    match kind with
    | .Lifetime outlives =>
      pure ([Token.lifetime name] ++
        (if outlives.isEmpty then []
         else colon ++ render_sequence [] [] plus true outlives (fun s => [Token.lifetime s])))
    | .Type bounds _synthetic => do
      let b ←
        if bounds.isEmpty then pure []
        else do
          let bb ←
            if bounds.isEmpty then pure []
            else do
              let rendered ← render_generic_bound_list root bounds
              pure (render_sequence [] [] plus true rendered (fun ts => ts))
          pure (colon ++ bb)
      pure ([Token.generic name] ++ b)
    | .Const type_ => do
      let t ← render_type root type_
      pure ([Token.qualifier "const", Token.Whitespace, Token.identifier name] ++ colon ++ t)
termination_by structural p => p

/-- Elementwise rendering of a generic-parameter list that skips synthetic
type parameters as it walks: this fuses the `filter` of
`render_generic_param_defs` with its element loop (the structural-recursion
checker cannot follow a call on a filtered list); the lemma
`render_generic_param_def_list_skipping_eq` below shows it equals rendering
the filtered list elementwise. -/
def render_generic_param_def_list_skipping (root : Crate) :
    List GenericParamDef → Option (List (List Token))
  | [] => pure []
  | p :: rest =>
    match p with
    | .mk _ (.Type _ true) => render_generic_param_def_list_skipping root rest
    | _ => do
      let r ← render_generic_param_def root p
      let rs ← render_generic_param_def_list_skipping root rest
      pure (r :: rs)
termination_by structural l => l

end

/-! ### The inlined helpers, in their source shapes -/

/-- `render_tuple` from `render.rs`: a parenthesised comma-separated list
with `return_nothing_if_empty = false`. -/
def render_tuple (root : Crate) (types : List Type') : Option (List Token) := do
  let rendered ← render_type_list root types
  pure (render_sequence [Token.symbol "("] [Token.symbol ")"] comma false rendered
    (fun ts => ts))

/-- The `Tuple` branch of `render_type` is exactly `render_tuple`. -/
theorem render_type_tuple_eq (root : Crate) (types : List Type') :
    render_type root (.Tuple types) = render_tuple root types := rfl

/-- `render_generic_bounds` from `render.rs`: empty bound lists render
nothing; otherwise a `+`-separated sequence with
`return_nothing_if_empty = true`. -/
def render_generic_bounds (root : Crate) (bounds : List GenericBound) : Option (List Token) :=
  if bounds.isEmpty then pure []
  else do
    let rendered ← render_generic_bound_list root bounds
    pure (render_sequence [] [] plus true rendered (fun ts => ts))

/-- The parameter closure of `render_fn_decl` (`simplified_self` first,
otherwise verbatim `name: type` with the name suppressed for `_`). -/
def render_fn_param (root : Crate) (name : String) (ty : Type') : Option (List Token) :=
  match simplified_self name ty with
  | some ts => pure ts
  | none => do
    let t ← render_type root ty
    pure ((if name ≠ "_" then [Token.identifier name, Token.symbol ":", Token.Whitespace]
      else []) ++ t)

/-- The parameter walker renders each parameter exactly through
`render_fn_param`. -/
theorem render_fn_param_list_eq (root : Crate) (name : String) (ty : Type')
    (rest : List (String × Type')) :
    render_fn_param_list root ((name, ty) :: rest) = (do
      let r ← render_fn_param root name ty
      let rs ← render_fn_param_list root rest
      pure (r :: rs)) := by
  simp only [render_fn_param_list, render_fn_param]
  cases simplified_self name ty with
  | some ts => rfl
  | none => cases render_type root ty <;> rfl

/-- Elementwise rendering of an (already filtered) generic-parameter list. -/
def render_generic_param_def_list (root : Crate) :
    List GenericParamDef → Option (List (List Token))
  | [] => pure []
  | p :: rest => do
    let r ← render_generic_param_def root p
    let rs ← render_generic_param_def_list root rest
    pure (r :: rs)

/-- The skipping walker renders exactly the filtered list, elementwise. -/
theorem render_generic_param_def_list_skipping_eq (root : Crate)
    (params : List GenericParamDef) :
    render_generic_param_def_list_skipping root params =
      render_generic_param_def_list root (params.filter (fun p =>
        match p with
        | .mk _ (.Type _ synthetic) => !synthetic
        | _ => true)) := by
  induction params with
  | nil => rfl
  | cons p rest ih =>
    match p with
    | .mk n (.Type bs true) =>
      simp [render_generic_param_def_list_skipping, List.filter_cons, ih]
    | .mk n (.Type bs false) =>
      simp [render_generic_param_def_list_skipping, render_generic_param_def_list,
        List.filter_cons, ih]
    | .mk n (.Lifetime o) =>
      simp [render_generic_param_def_list_skipping, render_generic_param_def_list,
        List.filter_cons, ih]
    | .mk n (.Const t) =>
      simp [render_generic_param_def_list_skipping, render_generic_param_def_list,
        List.filter_cons, ih]

/-- `render_generic_param_defs` from `render.rs`: filter out synthetic type
parameters; a non-empty filtered list renders as `<p1, p2, …>`
(`return_nothing_if_empty = true`), an empty one renders nothing. -/
def render_generic_param_defs (root : Crate) (params : List GenericParamDef) :
    Option (List Token) := do
  let params_without_synthetics := params.filter (fun p =>
    match p with
    | .mk _ (.Type _ synthetic) => !synthetic
    | _ => true)
  if params_without_synthetics.isEmpty then pure []
  else do
    let rendered ← render_generic_param_def_list root params_without_synthetics
    pure (render_sequence [Token.symbol "<"] [Token.symbol ">"] comma true rendered
      (fun ts => ts))

/-- `render_higher_rank_trait_bounds` from `render.rs`: a non-empty
bound-scoped parameter list renders as `for<…> ` with a trailing space; an
empty one renders nothing. -/
def render_higher_rank_trait_bounds (root : Crate) (generic_params : List GenericParamDef) :
    Option (List Token) :=
  if generic_params.isEmpty then pure []
  else do
    let defs ← render_generic_param_defs root generic_params
    pure ([Token.keyword "for"] ++ defs ++ [Token.Whitespace])

/-- `render_where_predicate` from `render.rs`: bound predicates render the
higher-rank parameters, the type, a colon and the bounds; region predicates
render only the lifetime (the bounds are discarded); equality predicates
render `lhs = rhs`. -/
def render_where_predicate (root : Crate) : WherePredicate → Option (List Token)
  | .BoundPredicate type_ bounds generic_params => do
    let h ← render_higher_rank_trait_bounds root generic_params
    let t ← render_type root type_
    let b ← render_generic_bounds root bounds
    pure (h ++ t ++ colon ++ b)
  | .RegionPredicate lifetime _bounds => pure [Token.Lifetime lifetime]
  | .EqPredicate lhs rhs => do
    let l ← render_type root lhs
    let r ← render_term root rhs
    pure (l ++ equals ++ r)

/-! ## Support lemmas for the sequence renderer -/

theorem foldl_render_extend {α : Type} (between : List Token) (render : α → List Token) :
    ∀ (sequence : List α) (acc : List Token),
      sequence.foldl (fun acc seq => acc ++ render seq ++ between) acc =
        acc ++ (sequence.map (fun x => render x ++ between)).flatten := by
  intro sequence
  induction sequence with
  | nil => simp
  | cons a l ih =>
    intro acc
    rw [List.foldl_cons, ih]
    simp [List.append_assoc]

theorem flatten_map_append_length {b : List Token} (r : List Token) (rs : List (List Token)) :
    b.length ≤ (((r :: rs).map (fun x => x ++ b)).flatten).length := by
  simp [List.length_flatten]
  omega

theorem flatten_sep_take (b : List Token) :
    ∀ (rs : List (List Token)) (r : List Token),
      (((r :: rs).map (fun x => x ++ b)).flatten).take
          ((((r :: rs).map (fun x => x ++ b)).flatten).length - b.length) =
        (List.intersperse b (r :: rs)).flatten := by
  intro rs
  induction rs with
  | nil =>
    intro r
    simp [List.take_left']
  | cons r2 rest ih =>
    intro r
    have hlen := flatten_map_append_length (b := b) r2 rest
    have hstep : (((r :: r2 :: rest).map (fun x => x ++ b)).flatten) =
        (r ++ b) ++ (((r2 :: rest).map (fun x => x ++ b)).flatten) := by
      simp
    rw [hstep]
    have harith : ((r ++ b) ++ (((r2 :: rest).map (fun x => x ++ b)).flatten)).length -
        b.length = (r ++ b).length +
          ((((r2 :: rest).map (fun x => x ++ b)).flatten).length - b.length) := by
      simp
      omega
    rw [harith, List.take_append, ih r2]
    simp [List.append_assoc]

theorem length_flatten_intersperse_ge (b r : List Token) (rs : List (List Token)) :
    r.length ≤ ((List.intersperse b (r :: rs)).flatten).length := by
  cases rs with
  | nil => simp
  | cons r2 rest => simp [List.length_flatten]

/-! ## Claims about the renderer -/

/-- C7 (amended): provided the between-separator is longer than the start
token list and every element renders non-empty (both hold at the source's
call sites), `render_sequence` renders the elements with the separator
interposed and exactly the one trailing separator trimmed; with no elements
it returns the empty sequence when the flag is set and `start ++ end`
otherwise. Consequently an empty function argument list or tuple renders as
`()` while an empty generic-argument or bound list renders nothing. Without
the proviso the claim fails: see the counterexample, where the trailing trim
eats into `start`. -/
theorem render_sequence_spec {α : Type} (root : Crate) (start end_ between : List Token)
    (flag : Bool) (sequence : List α) (render : α → List Token)
    (hlen : start.length < between.length)
    (hne : ∀ x ∈ sequence, render x ≠ []) :
    (render_sequence start end_ between flag sequence render =
      if sequence.isEmpty then (if flag then [] else start ++ end_)
      else start ++ (List.intersperse between (sequence.map render)).flatten ++ end_)
    ∧ render_tuple root [] = some [Token.symbol "(", Token.symbol ")"]
    ∧ render_fn_decl root (.mk [] none) = some [Token.symbol "(", Token.symbol ")"]
    ∧ render_generic_args root (.AngleBracketed [] []) = some []
    ∧ render_generic_bounds root [] = some [] := by
  refine ⟨?_, rfl, rfl, rfl, rfl⟩
  cases sequence with
  | nil =>
    unfold render_sequence
    rw [List.foldl_nil, if_neg (by omega)]
    cases flag <;> simp
  | cons a l =>
    have hfold := foldl_render_extend between render (a :: l) start
    have hmaps : (a :: l).map (fun x => render x ++ between) =
        ((a :: l).map render).map (fun x => x ++ between) := by
      simp [List.map_map]
    have hJlen := flatten_map_append_length (b := between) (render a) (l.map render)
    have hra : 0 < (render a).length :=
      List.length_pos.mpr (hne a (List.mem_cons_self a l))
    have hMlen := length_flatten_intersperse_ge between (render a) (l.map render)
    unfold render_sequence
    rw [hfold, hmaps, List.map_cons render a l]
    rw [if_pos (by simp only [List.length_append]; omega)]
    have harith : (start ++ (((render a :: l.map render).map
        (fun x => x ++ between)).flatten)).length - between.length =
        start.length + ((((render a :: l.map render).map
          (fun x => x ++ between)).flatten).length - between.length) := by
      simp only [List.length_append]
      omega
    rw [harith]
    rw [List.take_append, flatten_sep_take between (l.map render) (render a)]
    have hbeq : ((start ++ (List.intersperse between
        (render a :: l.map render)).flatten).length == start.length) = false :=
      beq_eq_false_iff_ne.mpr (by simp only [List.length_append]; omega)
    simp [hbeq, List.append_assoc]
    intro hsum
    rw [← List.length_flatten] at hsum
    exact absurd hsum (by omega)

/-- C7 counterexample: with an empty element list, the flag unset, start
`(`, end `)` and a one-token separator, the unconditional trailing-separator
truncation eats the start token, so the result is `)` alone instead of the
claimed `start` immediately followed by `end`. -/
theorem render_sequence_counterexample :
    render_sequence [Token.symbol "("] [Token.symbol ")"] [Token.symbol ","] false
      ([] : List (List Token)) (fun ts => ts) = [Token.symbol ")"] ∧
    render_sequence [Token.symbol "("] [Token.symbol ")"] [Token.symbol ","] false
      ([] : List (List Token)) (fun ts => ts) ≠
      [Token.symbol "("] ++ [Token.symbol ")"] := by
  constructor
  · rfl
  · decide

/-- Witness for C7 at a concrete input: a singleton element list under the
two-token argument separator renders as `start ++ element ++ end`, and the
empty tuple renders as `()`. -/
theorem render_sequence_spec_witness :
    ([Token.symbol "("] : List Token).length < comma.length ∧
    (∀ x ∈ [[Token.symbol "_"]], (fun ts : List Token => ts) x ≠ []) ∧
    (render_sequence [Token.symbol "("] [Token.symbol ")"] comma false
        [[Token.symbol "_"]] (fun ts => ts) =
      if ([[Token.symbol "_"]] : List (List Token)).isEmpty then
        (if false then [] else [Token.symbol "("] ++ [Token.symbol ")"])
      else [Token.symbol "("] ++
        (List.intersperse comma ([[Token.symbol "_"]].map (fun ts : List Token => ts))).flatten
        ++ [Token.symbol ")"]) ∧
    render_tuple (Crate.mk []) [] = some [Token.symbol "(", Token.symbol ")"] := by
  refine ⟨by decide, by decide, ?_, ?_⟩
  · exact (render_sequence_spec (Crate.mk []) [Token.symbol "("] [Token.symbol ")"] comma
      false [[Token.symbol "_"]] (fun ts => ts) (by decide) (by decide)).1
  · exact (render_sequence_spec (Crate.mk []) [Token.symbol "("] [Token.symbol ")"] comma
      false [[Token.symbol "_"]] (fun ts => ts) (by decide) (by decide)).2.1

/-- C2 counterexample: with an empty index, looking up any id panics
(`none`), so rendering a resolved-path type with an empty explicit name and
an absent id fails instead of yielding the empty token sequence. -/
theorem render_id_absent_counterexample :
    render_id (Crate.mk []) (rustdoc.Id.mk "i0") = none ∧
    render_type (Crate.mk []) (.ResolvedPath "" none (rustdoc.Id.mk "i0") []) = none ∧
    render_type (Crate.mk []) (.ResolvedPath "" none (rustdoc.Id.mk "i0") []) ≠ some [] := by
  refine ⟨rfl, rfl, ?_⟩
  intro h
  exact Option.noConfusion h

/-- C2 (amended): rendering a resolved-path type whose explicit name is
empty falls back to looking up the referenced id in the shared index and
rendering that item's stored name, yielding the empty token sequence when
the found item has no name; but when the id is absent from the index the
`HashMap` indexing panics instead of degrading, so the fallback never fails
only for ids that are present. -/
theorem resolved_path_empty_name_fallback (root : Crate) (id : rustdoc.Id)
    (args : Option GenericArgs) (item : rustdoc.Item)
    (hfound : root.indexGet id = some item) :
    render_type root (.ResolvedPath "" args id []) = render_id root id ∧
    render_id root id = some (match item.name with
      | some n => [Token.identifier n]
      | none => []) ∧
    (∀ id2, root.indexGet id2 = none → render_id root id2 = none) := by
  refine ⟨?_, ?_, ?_⟩
  · have h0 : render_type root (.ResolvedPath "" args id []) =
        Option.bind (render_id root id) pure := rfl
    rw [h0]
    cases render_id root id <;> rfl
  · unfold render_id
    rw [hfound]
  · intro id2 h2
    unfold render_id
    rw [h2]

/-- Witness for C2 (amended) at a concrete input: an index holding one
unnamed item; the fallback renders the empty token sequence for it. -/
theorem resolved_path_empty_name_fallback_witness :
    (Crate.mk [(rustdoc.Id.mk "a", rustdoc.Item.mk none)]).indexGet (rustdoc.Id.mk "a") =
      some (rustdoc.Item.mk none) ∧
    render_type (Crate.mk [(rustdoc.Id.mk "a", rustdoc.Item.mk none)])
        (.ResolvedPath "" none (rustdoc.Id.mk "a") []) =
      render_id (Crate.mk [(rustdoc.Id.mk "a", rustdoc.Item.mk none)]) (rustdoc.Id.mk "a") ∧
    render_id (Crate.mk [(rustdoc.Id.mk "a", rustdoc.Item.mk none)]) (rustdoc.Id.mk "a") =
      some [] := by
  have h := resolved_path_empty_name_fallback
    (Crate.mk [(rustdoc.Id.mk "a", rustdoc.Item.mk none)]) (rustdoc.Id.mk "a") none
    (rustdoc.Item.mk none) (by rfl)
  exact ⟨by rfl, h.1, h.2.1⟩

/-- C8: `self`-parameter simplification is exact. A parameter named `self`
of type `Self`, `&Self` or `&mut Self` simplifies to `self`, `&self`,
`&mut self`; no other parameter name triggers the simplification, the only
simplified types are the `Self` shapes, and a parameter `self: CustomType`
renders verbatim through the fallback of the parameter-rendering closure. -/
theorem simplified_self_exact (root : Crate) :
    simplified_self "self" (.Generic "Self") = some [Token.self_ "self"] ∧
    simplified_self "self" (.BorrowedRef none false (.Generic "Self")) =
      some [Token.symbol "&", Token.self_ "self"] ∧
    simplified_self "self" (.BorrowedRef none true (.Generic "Self")) =
      some [Token.symbol "&", Token.keyword "mut", Token.Whitespace, Token.self_ "self"] ∧
    (∀ (name : String) (ty : Type'), name ≠ "self" → simplified_self name ty = none) ∧
    (∀ (ty : Type') (ts : List Token), simplified_self "self" ty = some ts →
      ty = .Generic "Self" ∨
        ∃ lifetime mutable, ty = .BorrowedRef lifetime mutable (.Generic "Self")) ∧
    render_fn_param root "self" (.ResolvedPath "CustomType" none (rustdoc.Id.mk "id7") []) =
      some [Token.identifier "self", Token.symbol ":", Token.Whitespace,
        Token.type_ "CustomType"] := by
  refine ⟨rfl, rfl, rfl, ?_, ?_, rfl⟩
  · intro name ty hname
    simp [simplified_self, hname]
  · intro ty ts h
    match ty with
    | .Generic n =>
      left
      simp only [simplified_self, if_pos rfl] at h
      by_cases hn : n = "Self"
      · rw [hn]
      · simp [hn] at h
    | .BorrowedRef lifetime mutable type_ =>
      right
      refine ⟨lifetime, mutable, ?_⟩
      match type_ with
      | .Generic n =>
        simp only [simplified_self, if_pos rfl] at h
        by_cases hn : n = "Self"
        · rw [hn]
        · simp [hn] at h
      | .ResolvedPath a b c d => simp [simplified_self] at h
      | .Primitive n => simp [simplified_self] at h
      | .FunctionPointer p => simp [simplified_self] at h
      | .Tuple ts2 => simp [simplified_self] at h
      | .Slice t => simp [simplified_self] at h
      | .Array t len => simp [simplified_self] at h
      | .ImplTrait bs => simp [simplified_self] at h
      | .Infer => simp [simplified_self] at h
      | .RawPointer m t => simp [simplified_self] at h
      | .BorrowedRef lt m t => simp [simplified_self] at h
      | .QualifiedPath a b c d => simp [simplified_self] at h
    | .ResolvedPath a b c d => simp [simplified_self] at h
    | .Primitive n => simp [simplified_self] at h
    | .FunctionPointer p => simp [simplified_self] at h
    | .Tuple ts2 => simp [simplified_self] at h
    | .Slice t => simp [simplified_self] at h
    | .Array t len => simp [simplified_self] at h
    | .ImplTrait bs => simp [simplified_self] at h
    | .Infer => simp [simplified_self] at h
    | .RawPointer m t => simp [simplified_self] at h
    | .QualifiedPath a b c d => simp [simplified_self] at h

/-- Witness for C8 at concrete inputs: a non-`self` parameter name is never
simplified, and the `Self` shape is among the only simplified shapes. -/
theorem simplified_self_exact_witness :
    ("v1_param" : String) ≠ "self" ∧
    simplified_self "v1_param" (.Generic "Self") = none ∧
    simplified_self "self" (.Generic "Self") = some [Token.self_ "self"] ∧
    ((.Generic "Self" : Type') = .Generic "Self" ∨
      ∃ lifetime mutable, (.Generic "Self" : Type') =
        .BorrowedRef lifetime mutable (.Generic "Self")) := by
  refine ⟨by decide, ?_, ?_, ?_⟩
  · exact (simplified_self_exact (Crate.mk [])).2.2.2.1 "v1_param" (.Generic "Self")
      (by decide)
  · exact (simplified_self_exact (Crate.mk [])).1
  · exact (simplified_self_exact (Crate.mk [])).2.2.2.2.1 (.Generic "Self")
      [Token.self_ "self"] rfl

/-- C10: a region-outlives where-predicate renders only its lifetime token,
discarding the bounds entirely (whatever they are), unlike an equality
predicate, whose right-hand side is rendered after `=`. -/
theorem where_predicate_region_drops_bounds (root : Crate) (lifetime : String)
    (bounds : List GenericBound) :
    render_where_predicate root (.RegionPredicate lifetime bounds) =
      some [Token.Lifetime lifetime] ∧
    (∀ bounds2, render_where_predicate root (.RegionPredicate lifetime bounds) =
      render_where_predicate root (.RegionPredicate lifetime bounds2)) ∧
    render_where_predicate root (.EqPredicate .Infer (.Type (.Primitive "u8"))) =
      some ([Token.symbol "_"] ++ equals ++ [Token.primitive "u8"]) := by
  exact ⟨rfl, fun _ => rfl, rfl⟩
